import Mathlib

/-!
# Verification of the kinm append-only resource store

This development gives a shallow embedding of the storage engine of the
kinm repository and proves properties of it.

The repository contains two parallel implementations of the engine:

* the generic variant in `pkg/db` (SQLite / MySQL; `record.created` and
  `record.deleted` are small integers), called the **db variant** below, and
* the PostgreSQL variant in `pkg/pg` (`record.created` / `record.deleted`
  are booleans), called the **pg variant** below.

Both share the same data model: an append-only log table per object kind
(`id, name, namespace, previous_id, uid, created, deleted, value`) plus a
shared `compaction` table holding one watermark row per kind.

The embedding models

* a table state as a list of rows plus the kind's compaction watermark,
* the SQL statements `list.sql`, `listafter.sql`, `insert.sql`,
  `tablemeta.sql`, `compact.sql` and `updatecompaction.sql` as pure
  functions over that state (row order in the list stands for ascending
  `id` order; the well-formedness predicate `Table.WF` states that ids are
  strictly increasing along the list and positive, which every reachable
  state satisfies because `insert.sql` allocates `id = max(id)+1`),
* the record layer `get / list / insert / delete / compact` of both
  variants (`db.go` in `pkg/db` resp. `pkg/pg`); Go panics are modelled by
  the error constructor `Err.crash`, and transaction begin/commit/rollback
  is the identity because the embedding is sequential,
* the strategy layer `Create / Update / UpdateStatus / Delete / List` of
  both variants over an abstract runtime object.  JSON encoding is
  modelled by an injective concatenation of the metadata fields the engine
  reads, since the engine treats the encoded value as an opaque blob.
-/

namespace Kinm

/-- One row of the per-kind log table.  `created` is the *stored* value of
the nullable `created` column (`true` ↦ `1`/`TRUE`, `false` ↦ `NULL`);
`previousID = none` models a `NULL` `previous_id`. -/
structure Rec where
  id : Int
  name : String
  nspace : String
  previousID : Option Int
  uid : String
  created : Bool
  deleted : Bool
  value : String
deriving Repr, DecidableEq

/-- The database state for one kind: the log rows (in ascending-id order
for reachable states) and the kind's row of the `compaction` table
(`none` when the kind has no compaction row yet). -/
structure Table where
  rows : List Rec
  compaction : Option Int
deriving Repr, DecidableEq

def Table.empty : Table := ⟨[], none⟩

/-- `SELECT max(id) FROM tbl` — `none` models SQL `NULL` on an empty table. -/
def maxIdQ (rows : List Rec) : Option Int :=
  rows.foldr (fun r m => match m with
    | none => some r.id
    | some v => some (max r.id v)) none

/-- `coalesce((SELECT max(id) FROM tbl), 0)` as used by `tablemeta.sql`
and by the id allocation of `insert.sql`. -/
def maxId (rows : List Rec) : Int := (maxIdQ rows).getD 0

/-- `coalesce((SELECT id FROM compaction WHERE name = kind), 0)`. -/
def wmark (t : Table) : Int := t.compaction.getD 0

/-- `namespace = $1 OR $1 IS NULL`. -/
def nsMatch (ns : Option String) (r : Rec) : Bool :=
  match ns with
  | none => true
  | some s => r.nspace == s

/-- `name = $2 OR $2 IS NULL`. -/
def nmMatch (nm : Option String) (r : Rec) : Bool :=
  match nm with
  | none => true
  | some s => r.name == s

/-- `$3 = 0 OR id <= $3` (the requested revision). -/
def revMatch (rev : Int) (r : Rec) : Bool := rev == 0 || r.id ≤ rev

/-- `$4 = 0 OR id > $4` (the pagination cursor inside a snapshot). -/
def contMatch (cont : Int) (r : Rec) : Bool := cont == 0 || cont < r.id

/-- The `WHERE` clause of the inner query of `list.sql`. -/
def listWhere (ns nm : Option String) (rev cont : Int) (r : Rec) : Bool :=
  nsMatch ns r && nmMatch nm r && revMatch rev r && contMatch cont r

/-- Two rows belong to the same `PARTITION BY name, namespace` group. -/
def sameKey (a b : Rec) : Bool := a.name == b.name && a.nspace == b.nspace

/-- `rn = 1` for the window `row_number() OVER (PARTITION BY name,
namespace ORDER BY id DESC)`: `r` has the maximal id of its partition
inside the filtered row set `l`. -/
def isHead (l : List Rec) (r : Rec) : Bool :=
  l.all fun q => !sameKey q r || q.id ≤ r.id

/-- The rows produced by `list.sql` before `LIMIT`: keep the newest row of
each `(name, namespace)` partition of the filtered rows and drop
tombstones (`deleted = 0` / `deleted is false`), in ascending id order. -/
def snapshotRows (t : Table) (ns nm : Option String) (rev cont : Int) : List Rec :=
  let filtered := t.rows.filter (listWhere ns nm rev cont)
  filtered.filter fun r => isHead filtered r && !r.deleted

/-- The rows produced by `listafter.sql` before `LIMIT`: every row with
`id > $3`, ascending, tombstones included. -/
def afterRows (t : Table) (ns nm : Option String) (rev : Int) : List Rec :=
  t.rows.filter fun r => nsMatch ns r && nmMatch nm r && rev < r.id

/-- `ListSQL`/`ListAfterSQL` append `LIMIT (limit+1)` when `limit > 0`. -/
def applyLimit (limit : Int) (l : List Rec) : List Rec :=
  if 0 < limit then l.take (limit + 1).toNat else l

/-- Both list statements report each row's `created` as
`created OR previous_id IS NULL` (`CASE WHEN created = 1 OR previous_id IS
NULL THEN 1 ELSE 0 END` in the SQLite dialect). -/
def outRec (r : Rec) : Rec :=
  { r with created := r.created || r.previousID.isNone }

/-- The `ListID`/`CompactionID` pair scanned alongside every result row
(`max_id` and `compaction_id` correlated subqueries). -/
structure TableMeta where
  ListID : Int
  CompactionID : Int
deriving Repr, DecidableEq

/-- `tablemeta.sql`. -/
def tableMetaQ (t : Table) : TableMeta := ⟨maxId t.rows, wmark t⟩

/-- Error taxonomy of the record layer (`pkg/db/errors`), plus `crash`
for Go panics. -/
inductive Err where
  | notFound (name : String)
  | conflict (name : String)
  | uidMismatch (name oldUid newUid : String)
  | alreadyExists (name : String)
  | compactionExpired (requested current : Int)
  | invalidArgument (msg : String)
  | crash (msg : String)
deriving Repr, DecidableEq

/-- `if err != nil { return nil, err }` followed by a successful return:
propagate the error, map the success value. -/
def exMap {α β : Type} (f : α → β) : Except Err α → Except Err β
  | .error e => .error e
  | .ok a => .ok (f a)

/-- The records scanned by `doList` of both variants: the dialect query
(snapshot or tail) with its `LIMIT`, each row projected through the
`created OR previous_id IS NULL` output column. -/
def listRecs (t : Table) (ns nm : Option String) (rev : Int) (after : Bool)
    (cont limit : Int) : List Rec :=
  (if after then applyLimit limit (afterRows t ns nm rev)
   else applyLimit limit (snapshotRows t ns nm rev cont)).map outRec

/-- `doList` of both variants: run the data query and scan rows together
with the table meta.  When no row is scanned the Go `meta` keeps its zero
value. -/
def doList (t : Table) (ns nm : Option String) (rev : Int) (after : Bool)
    (cont limit : Int) : TableMeta × List Rec :=
  if (listRecs t ns nm rev after cont limit).isEmpty then (⟨0, 0⟩, [])
  else (⟨maxId t.rows, wmark t⟩, listRecs t ns nm rev after cont limit)

/-- The `if rev > 0 && !after { meta.ListID = rev }` fix-up of
`(*db).list`. -/
def pinMeta (rev : Int) (after : Bool) (m0 : TableMeta) : TableMeta :=
  if 0 < rev ∧ after = false then { m0 with ListID := rev } else m0

/-- The meta value `(*db).list` ends up using: pin `ListID` to `rev` for a
snapshot at a requested revision, and re-read `tablemeta.sql` when
`ListID` is still zero. -/
def listMeta (t : Table) (ns nm : Option String) (rev : Int) (after : Bool)
    (cont limit : Int) : TableMeta :=
  if (pinMeta rev after (doList t ns nm rev after cont limit).1).ListID = 0 then
    tableMetaQ t
  else pinMeta rev after (doList t ns nm rev after cont limit).1

/-- `(*db).list` (identical in both variants): panic guards, the data
query, the `ListID` fix-ups and the compaction check. -/
def dbList (t : Table) (ns nm : Option String) (rev : Int) (after : Bool)
    (cont limit : Int) : Except Err (TableMeta × List Rec) :=
  if 0 < cont ∧ rev ≤ 0 then .error (.crash "rev must be set when cont is set")
  else if after = true ∧ cont ≠ 0 then .error (.crash "cont must be zero when after is true")
  else if rev ≠ 0 ∧ (listMeta t ns nm rev after cont limit).ListID ≠ 0 ∧
      (listMeta t ns nm rev after cont limit).ListID <
        (listMeta t ns nm rev after cont limit).CompactionID then
    .error (.compactionExpired (listMeta t ns nm rev after cont limit).ListID
      (listMeta t ns nm rev after cont limit).CompactionID)
  else .ok (listMeta t ns nm rev after cont limit, (doList t ns nm rev after cont limit).2)

/-- `getNamespace` (`listiter.go`): an empty namespace becomes a SQL
`NULL` parameter, which disables the namespace predicate. -/
def getNamespace (ns : String) : Option String :=
  if ns = "" then none else some ns

/-- `(*db).get` (identical in both variants): a snapshot list with
`limit = 1` at head revision, mapping an empty result to NotFound. -/
def dbGet (t : Table) (ns name : String) : Except Err Rec :=
  match dbList t (getNamespace ns) (some name) 0 false 0 1 with
  | .error e => .error e
  | .ok (_, recs) =>
    match recs with
    | [] => .error (.notFound name)
    | r :: _ => .ok r

/-- `insert.sql` allocates `id = (SELECT COALESCE(MAX(id), 0) + 1 FROM tbl)`. -/
def allocId (t : Table) : Int := maxId t.rows + 1

/-- The uniqueness constraints checked by the DB on insert.  SQL `UNIQUE`
ignores `NULL`s, so `(name, namespace, created)` only fires between two
rows whose stored `created` is non-`NULL`, and `previous_id` only fires
between two non-`NULL` `previous_id`s.  (`id` is `max+1`, which can never
collide.)  Both variants translate a uniqueness violation (SQLSTATE 23505
resp. SQLite code 2067) to AlreadyExists. -/
def uniqueViolation (t : Table) (r : Rec) : Bool :=
  (r.created && t.rows.any fun q => q.created && sameKey q r) ||
  (r.previousID.isSome && t.rows.any fun q => q.previousID == r.previousID)

/-- Run `insert.sql`: constraint check, id allocation, append. -/
def insertRow (t : Table) (r : Rec) : Except Err (Int × Table) :=
  if uniqueViolation t r then .error (.alreadyExists r.name)
  else .ok (allocId t, { t with rows := t.rows ++ [{ r with id := allocId t }] })

/-- `doInsert` of the **db variant** (`pkg/db/db.go`): panic guards, the
update pre-check against the current head (including the idempotent no-op
short circuit when the incoming value equals the stored head value and the
record is not a tombstone), then `insert.sql`. -/
def dbDoInsert (t : Table) (r : Rec) : Except Err (Int × Table) :=
  if r.id ≠ 0 then .error (.crash "id must be zero")
  else match r.previousID, r.created with
  | some _, true => .error (.crash "previousID must be nil when created is true")
  | none, false => .error (.crash "previousID must be set when created is false")
  | none, true => insertRow t r
  | some p, false =>
    match dbGet t r.nspace r.name with
    | .error (.notFound _) => .error (.conflict r.name)
    | .error e => .error e
    | .ok existing =>
      if existing.id ≠ p then .error (.conflict r.name)
      else if existing.uid ≠ r.uid then
        .error (.uidMismatch r.name existing.uid r.uid)
      else if r.deleted = false ∧ existing.value = r.value then .ok (existing.id, t)
      else insertRow t r

/-- `doInsert` of the **pg variant** (`pkg/pg/db.go`): identical except
that it has **no** value-equality short circuit — every successful
non-creation insert appends a row. -/
def pgDoInsert (t : Table) (r : Rec) : Except Err (Int × Table) :=
  if r.id ≠ 0 then .error (.crash "id must be zero")
  else match r.previousID, r.created with
  | some _, true => .error (.crash "previousID must be nil when created is true")
  | none, false => .error (.crash "previousID must be set when created is false")
  | none, true => insertRow t r
  | some p, false =>
    match dbGet t r.nspace r.name with
    | .error (.notFound _) => .error (.conflict r.name)
    | .error e => .error e
    | .ok existing =>
      if existing.id ≠ p then .error (.conflict r.name)
      else if existing.uid ≠ r.uid then
        .error (.uidMismatch r.name existing.uid r.uid)
      else insertRow t r

/-- Modelled from the spec: `clearcreated.sql` of the db variant is not
under `src/` (only its caller is).  Spec §4.2: after a delete, "a
post-step clears any stale `created=true` marker for the same
`(name, namespace)` with id < new id". -/
def clearCreated (t : Table) (ns nm : String) (newId : Int) : Table :=
  { t with rows := t.rows.map fun q =>
      if q.nspace == ns && q.name == nm && q.id < newId then
        { q with created := false }
      else q }

/-- `(*db).delete` of the **db variant**: panic when `previousID` is
`NULL`, force a non-created tombstone, insert it, clear stale `created`
markers. -/
def dbDelete (t : Table) (r : Rec) : Except Err (Int × Table) :=
  match r.previousID with
  | none => .error (.crash "previousID must be set")
  | some _ =>
    let r := { r with created := false, deleted := true }
    exMap (fun p => (p.1, clearCreated p.2 r.nspace r.name p.1)) (dbDoInsert t r)

/-- `(*db).delete` of the **pg variant**: additionally panics when
`*previousID <= 0`. -/
def pgDelete (t : Table) (r : Rec) : Except Err (Int × Table) :=
  match r.previousID with
  | none => .error (.crash "previousID must be set and greater than zero")
  | some p =>
    if p ≤ 0 then .error (.crash "previousID must be set and greater than zero")
    else
      let r := { r with created := false, deleted := true }
      exMap (fun p => (p.1, clearCreated p.2 r.nspace r.name p.1)) (pgDoInsert t r)

/-- `compact.sql`: one bounded batch.  A row `prev` is deleted when some
row `cur` with `cur.id <= watermark` has `cur.previous_id = prev.id`
(superseded revision) or `cur.id = prev.id ∧ cur.deleted` (tombstone),
`LIMIT 500`. -/
def compactCandidates (t : Table) : List Rec :=
  (t.rows.filter fun p => t.rows.any fun cur =>
      (cur.previousID == some p.id || (p.id == cur.id && cur.deleted)) &&
      cur.id ≤ wmark t).take 500

/-- Execute one `compact.sql` batch, returning `RowsAffected`. -/
def pruneBatch (t : Table) : Nat × Table :=
  let dels := compactCandidates t
  let keep := t.rows.filter fun r => !(dels.any fun d => d.id == r.id)
  (t.rows.length - keep.length, { t with rows := keep })

/-- The prune loop shared by both `compact` implementations: repeat
batches until one affects zero rows.  `fuel` only bounds the recursion;
`t.rows.length + 1` is always enough because a non-zero batch removes at
least one row. -/
def pruneLoop : Nat → Table → Nat → Nat × Table
  | 0, t, acc => (acc, t)
  | fuel + 1, t, acc =>
    let (n, t') := pruneBatch t
    if n = 0 then (acc, t') else pruneLoop fuel t' (acc + n)

/-- `updatecompaction.sql` of the db variant:
`coalesce(max(r.id), 1)` upserted as the kind's watermark. -/
def dbAdvanceVal (t : Table) : Int := (maxIdQ t.rows).getD 1

/-- `updatecompaction.sql` of the pg variant:
`greatest(max(r.id), 1)` (PostgreSQL `greatest` ignores the `NULL` max of
an empty table). -/
def pgAdvanceVal (t : Table) : Int :=
  match maxIdQ t.rows with
  | none => 1
  | some m => max m 1

/-- `(*db).compact` of the **db variant**: prune batches until a batch
deletes zero rows, *then* advance the watermark. -/
def dbCompact (t : Table) : Nat × Table :=
  let (n, t') := pruneLoop (t.rows.length + 1) t 0
  (n, { t' with compaction := some (dbAdvanceVal t') })

/-- `(*db).compact` of the **pg variant**: advance the watermark *first*,
then prune batches until a batch deletes zero rows. -/
def pgCompact (t : Table) : Nat × Table :=
  let t0 := { t with compaction := some (pgAdvanceVal t) }
  pruneLoop (t0.rows.length + 1) t0 0

/-! ## Strategy layer

The runtime object is abstracted to the metadata fields the strategy
reads and writes (`name, namespace, uid, generation, resourceVersion,
deletionTimestamp, finalizers`) plus an opaque payload standing for every
other serialized field.  `deletionStamp` records whether
`deletionTimestamp` is non-nil. -/

structure Obj where
  name : String
  nspace : String
  uid : String
  generation : Int
  resourceVersion : String
  deletionStamp : Bool
  finalizers : List String
  payload : String
deriving Repr, DecidableEq

/-- JSON serialization (`json.NewEncoder(&buf).Encode(object)`) modelled
as an injective concatenation of the encoded fields: Go's encoder is
deterministic, so two objects encode equally iff their fields are equal,
which is all the engine ever observes of the blob. -/
def encodeObj (o : Obj) : String :=
  o.name ++ "|" ++ o.nspace ++ "|" ++ o.uid ++ "|" ++ toString o.generation ++
  "|" ++ o.resourceVersion ++ "|" ++ (if o.deletionStamp then "T" else "N") ++
  "|" ++ toString o.finalizers.length ++ String.join o.finalizers ++ "|" ++ o.payload

/-- Decimal digit accumulator for `strToInt`. -/
def digitsAux : List Char → Nat → Option Nat
  | [], acc => some acc
  | c :: cs, acc =>
    if '0' ≤ c ∧ c ≤ '9' then digitsAux cs (acc * 10 + (c.toNat - 48)) else none

/-- `strconv.ParseInt(s, 10, 64)` modelled structurally for decimal
strings (`String.toInt?` semantics, written by structural recursion so
the model is executable by the kernel). -/
def strToInt (s : String) : Option Int :=
  match s.data with
  | [] => none
  | '-' :: cs =>
    match cs with
    | [] => none
    | _ => (digitsAux cs 0).map fun n => -(n : Int)
  | '+' :: cs =>
    match cs with
    | [] => none
    | _ => (digitsAux cs 0).map fun n => (n : Int)
  | cs => (digitsAux cs 0).map fun n => (n : Int)

/-- `strconv.ParseInt(rv, 10, 64)` with the surrounding
`if obj.GetResourceVersion() != ""` guard of `doUpdate`: an empty string
leaves the version at 0, anything unparsable is an error. -/
def parseRv (s : String) : Except Err Int :=
  if s = "" then .ok 0
  else match strToInt s with
  | some v => .ok v
  | none => .error (.invalidArgument "invalid resource version")

/-- `(*Strategy).Create` of the **db variant** (`pkg/db/strategy.go`):
require a uid, set `generation = 1`, reset the stored `resourceVersion`
to `"0"`, encode, insert a creation row, return a copy carrying the new
id as its resourceVersion. -/
def strategyCreate (t : Table) (o : Obj) : Except Err (Obj × Table) :=
  if o.uid = "" then .error (.invalidArgument "object must have a UID")
  else
    let o := { o with generation := 1, resourceVersion := "0" }
    exMap (fun p => ({ o with resourceVersion := toString p.1 }, p.2))
      (dbDoInsert t ⟨0, o.name, o.nspace, none, o.uid, true, false, encodeObj o⟩)

/-- `(*Strategy).Create` of the **pg variant** (`pkg/pg/strategy.go`):
identical except that the stored blob keeps the caller's
`resourceVersion` — there is **no** reset to `"0"` before encoding. -/
def pgStrategyCreate (t : Table) (o : Obj) : Except Err (Obj × Table) :=
  if o.uid = "" then .error (.invalidArgument "object must have a UID")
  else
    let o := { o with generation := 1 }
    exMap (fun p => ({ o with resourceVersion := toString p.1 }, p.2))
      (pgDoInsert t ⟨0, o.name, o.nspace, none, o.uid, true, false, encodeObj o⟩)

/-- `(*Strategy).doUpdate` of the **db variant**: parse the submitted
resourceVersion into `previousID`, optionally bump the generation, reset
the stored resourceVersion to `"0"`, encode, and either tombstone (when
the object has a deletionTimestamp and no finalizers) or insert. -/
def strategyDoUpdate (t : Table) (o : Obj) (updateGeneration : Bool) :
    Except Err (Obj × Table) :=
  match parseRv o.resourceVersion with
  | .error e => .error e
  | .ok rv =>
    let o := { o with
      generation := o.generation + (if updateGeneration then 1 else 0),
      resourceVersion := "0" }
    let rcd : Rec := ⟨0, o.name, o.nspace, some rv, o.uid, false, false, encodeObj o⟩
    exMap (fun p => ({ o with resourceVersion := toString p.1 }, p.2))
      (if o.deletionStamp = true ∧ o.finalizers = [] then dbDelete t rcd
       else dbDoInsert t rcd)

def strategyUpdate (t : Table) (o : Obj) : Except Err (Obj × Table) :=
  strategyDoUpdate t o true

def strategyUpdateStatus (t : Table) (o : Obj) : Except Err (Obj × Table) :=
  strategyDoUpdate t o false

/-- `(*Strategy).Delete` of the **db variant**: stamp the
deletionTimestamp if unset, then take the update path (which promotes to
a tombstone once finalizers are empty). -/
def strategyDelete (t : Table) (o : Obj) : Except Err (Obj × Table) :=
  let o := if o.deletionStamp then o else { o with deletionStamp := true }
  strategyDoUpdate t o false

/-- `(*Strategy).doUpdate` of the **pg variant**: bumps the generation and
encodes *without* resetting the resourceVersion, then parses the version;
`deleted` is an explicit argument and the delete path calls the pg
`delete`, which panics on `previousID <= 0`. -/
def pgStrategyDoUpdate (t : Table) (o : Obj) (updateGeneration deleted : Bool) :
    Except Err (Obj × Table) :=
  let o1 := { o with generation := o.generation + (if updateGeneration then 1 else 0) }
  let v := encodeObj o1
  match parseRv o1.resourceVersion with
  | .error e => .error e
  | .ok rv =>
    let rcd : Rec := ⟨0, o1.name, o1.nspace, some rv, o1.uid, false, false, v⟩
    exMap (fun p => ({ o1 with resourceVersion := toString p.1 }, p.2))
      (if deleted then pgDelete t rcd else pgDoInsert t rcd)

/-- `(*Strategy).Delete` of the **pg variant**: no deletionTimestamp
stamping — it always dispatches the tombstone path. -/
def pgStrategyDelete (t : Table) (o : Obj) : Except Err (Obj × Table) :=
  pgStrategyDoUpdate t o false true

/-- One write operation of the strategy API (db variant). -/
inductive WriteOp where
  | create (o : Obj)
  | update (o : Obj)
  | updateStatus (o : Obj)
  | del (o : Obj)
deriving Repr, DecidableEq

def applyWrite (t : Table) : WriteOp → Except Err (Obj × Table)
  | .create o => strategyCreate t o
  | .update o => strategyUpdate t o
  | .updateStatus o => strategyUpdateStatus t o
  | .del o => strategyDelete t o

/-! ## List iterator and Strategy.List -/

/-- Pagination of the list iterator (`newLister`): after a page of more
than `limit` records, re-enter `db.list` at the same pinned revision with
`cont` = the last record's id.  `fuel` bounds the recursion (each page
advances the cursor past at least one row). -/
def pagesFrom (t : Table) (ns nm : Option String) (rev limit : Int) :
    Nat → Int → Except Err (List Rec)
  | 0, _ => .ok []
  | fuel + 1, cont =>
    match dbList t ns nm rev false cont limit with
    | .error e => .error e
    | .ok (_, recs) =>
      if limit = 0 then .ok recs
      else if (recs.length : Int) ≤ limit then .ok recs
      else match recs.getLast? with
        | none => .ok recs
        | some last =>
          match pagesFrom t ns nm rev limit fuel last.id with
          | .error e => .error e
          | .ok rest => .ok (recs ++ rest)

/-- `newLister` after parsing (both variants): the first `db.list` call
fixes the iterator's revision to the returned `ListID`; the lazy sequence
then re-enters `db.list` at that revision whenever a page carried the one
extra record.  Returns the iterator's resourceVersion (the first page's
`ListID`) and the full record stream. -/
def newListerStream (t : Table) (ns nm : Option String) (rev cont limit : Int) :
    Except Err (Int × List Rec) :=
  match dbList t ns nm rev false cont limit with
  | .error e => .error e
  | .ok (meta, recs) =>
    if limit = 0 then .ok (meta.ListID, recs)
    else if (recs.length : Int) ≤ limit then .ok (meta.ListID, recs)
    else match recs.getLast? with
      | none => .ok (meta.ListID, recs)
      | some last =>
        match pagesFrom t ns nm meta.ListID limit t.rows.length last.id with
        | .error e => .error e
        | .ok rest => .ok (meta.ListID, recs ++ rest)

/-- Result of `(*Strategy).List`: decoded items (kept as their records),
the list resourceVersion and the continue token. -/
structure ListRes where
  items : List Rec
  rv : String
  continueTok : String
deriving Repr, DecidableEq

/-- The consumption loop of `(*Strategy).List`: records failing the
caller predicate are skipped; once `limit` matches are accumulated the
loop emits a continue token built from the last accumulated object's
resourceVersion (= its record id) and stops.  `mkTok` abstracts the
token format, which is where the two variants differ.  The accumulator is
kept reversed; `objs[len(objs)-1]` is its head. -/
def listLoop (pred : Rec → Bool) (limit : Int) (mkTok : Int → String) :
    List Rec → List Rec → List Rec × String
  | acc, [] => (acc.reverse, "")
  | acc, r :: rest =>
    if !pred r then listLoop pred limit mkTok acc rest
    else if 0 < limit ∧ limit ≤ (acc.length : Int) then
      (acc.reverse, mkTok (acc.headD r).id)
    else listLoop pred limit mkTok (r :: acc) rest

/-- Modelled from the spec: the db variant's continue-token parsing (its
list iterator file, the analogue of `pkg/pg/listiter.go`, is not under
`src/`).  Per §4.4 and the token grammar `"<snapshot-rev>:<last-id>"`, a
non-empty continue token is split at `:` into the snapshot revision and
the cursor, and pins the iterator to that snapshot revision (the
end-to-end scenario 6 lists with an empty ResourceVersion and
`continue="3:1"` and gets the snapshot at revision 3). -/
def splitColonAux : List Char → Option (List Char × List Char)
  | [] => none
  | c :: rest =>
    if c = ':' then some ([], rest)
    else (splitColonAux rest).map fun p => (c :: p.1, p.2)

def parseContinueTok (s : String) : Except Err (Int × Int) :=
  match splitColonAux s.data with
  | none => .error (.invalidArgument "invalid continue token")
  | some (a, b) =>
    match strToInt ⟨a⟩, strToInt ⟨b⟩ with
    | some x, some y => .ok (x, y)
    | _, _ => .error (.invalidArgument "invalid continue token")

/-- `(*Strategy).List` of the **db variant** (`pkg/db/strategy.go`): open
a snapshot lister, drain it through the predicate loop, and emit the
continue token `"<snapshot-rev>:<last-emitted-id>"` when stopping early.
The caller predicate is modelled on records (decoding is injective). -/
def dbStrategyList (t : Table) (ns nm : Option String) (rvOpt contTok : String)
    (limit : Int) (pred : Rec → Bool) : Except Err ListRes :=
  match (if contTok = "" then (parseRv rvOpt).map (fun r => (r, 0))
         else parseContinueTok contTok) with
  | .error e => .error e
  | .ok (rev, cont) =>
    match newListerStream t ns nm rev cont limit with
    | .error e => .error e
    | .ok (listID, stream) =>
      let rvStr := toString listID
      let (items, tok) :=
        listLoop pred limit (fun i => rvStr ++ ":" ++ toString i) [] stream
      .ok ⟨items, rvStr, tok⟩

/-- `(*Strategy).List` of the **pg variant** (`pkg/pg/strategy.go` with
`pkg/pg/listiter.go`): continue tokens are parsed as a **bare** integer
cursor and the emitted token is just the last object's resourceVersion —
no `"<snapshot-rev>:"` prefix; `prepareList` requires a resourceVersion
whenever a continue token is given. -/
def pgStrategyList (t : Table) (ns nm : Option String) (rvOpt contTok : String)
    (limit : Int) (pred : Rec → Bool) : Except Err ListRes :=
  if contTok ≠ "" ∧ rvOpt = "" then
    .error (.invalidArgument "resource version is required with continue")
  else
    match parseRv rvOpt, (if contTok = "" then Except.ok (0 : Int)
                          else match strToInt contTok with
                               | some v => Except.ok v
                               | none => Except.error (Err.invalidArgument "invalid continue token")) with
    | .error e, _ => .error e
    | _, .error e => .error e
    | .ok rev, .ok cont =>
      match newListerStream t ns nm rev cont limit with
      | .error e => .error e
      | .ok (listID, stream) =>
        let rvStr := toString listID
        let (items, tok) := listLoop pred limit (fun i => toString i) [] stream
        .ok ⟨items, rvStr, tok⟩

/-! ## Well-formedness

Reachable table states keep their rows in strictly increasing id order
with positive ids: the table starts empty, `insert.sql` appends with
`id = max(id)+1`, and deletion (compaction) and the `clearcreated`
fix-up preserve order.  SQL `ORDER BY id` is then the identity on the
row list, which is how the queries above read. -/

def Table.WF (t : Table) : Prop :=
  t.rows.Pairwise (fun a b => a.id < b.id) ∧ ∀ r ∈ t.rows, 0 < r.id

instance (t : Table) : Decidable t.WF := by
  unfold Table.WF
  infer_instance

/-! ## Basic lemmas -/

theorem maxIdQ_cons (a : Rec) (l : List Rec) :
    maxIdQ (a :: l) = (match maxIdQ l with
      | none => some a.id
      | some v => some (max a.id v)) := rfl

theorem maxIdQ_ge {rows : List Rec} {r : Rec} (h : r ∈ rows) :
    ∃ m, maxIdQ rows = some m ∧ r.id ≤ m := by
  induction rows with
  | nil => cases h
  | cons a l ih =>
    rcases List.mem_cons.1 h with rfl | hl
    · cases hq : maxIdQ l with
      | none => refine ⟨r.id, ?_, le_refl _⟩; rw [maxIdQ_cons, hq]
      | some v => refine ⟨max r.id v, ?_, le_max_left _ _⟩; rw [maxIdQ_cons, hq]
    · obtain ⟨m, hm, hle⟩ := ih hl
      refine ⟨max a.id m, ?_, le_trans hle (le_max_right _ _)⟩
      rw [maxIdQ_cons, hm]

theorem lt_allocId {t : Table} {r : Rec} (h : r ∈ t.rows) : r.id < allocId t := by
  obtain ⟨m, hm, hle⟩ := maxIdQ_ge h
  unfold allocId maxId
  rw [hm]
  simp only [Option.getD_some]
  omega

/-- Rows at distinct positions of a strictly id-sorted list have distinct
ids. -/
theorem pairwise_id_inj : ∀ {l : List Rec},
    l.Pairwise (fun a b => a.id < b.id) →
    ∀ {a b : Rec}, a ∈ l → b ∈ l → a.id = b.id → a = b := by
  intro l hp
  induction hp with
  | nil => intro a b ha _ _; cases ha
  | cons hx _ ih =>
    intro a b ha hb hid
    rcases List.mem_cons.1 ha with rfl | ha' <;> rcases List.mem_cons.1 hb with rfl | hb'
    · rfl
    · exact absurd hid (by have := hx _ hb'; omega)
    · exact absurd hid (by have := hx _ ha'; omega)
    · exact ih ha' hb' hid

/-! ## C5 — the CompactionExpired check of `list` -/

/-- C5 (amended): outside the two panic guards, `list` fails with
CompactionExpired exactly when `rev ≠ 0` and the *computed* meta has
`ListID ≠ 0` and `ListID < CompactionID`; and a list with `rev = 0` never
fails at all.  (The computed `CompactionID` equals the stored watermark
whenever the data query returned rows, or when the meta was re-read; but
when `rev > 0` and the data query returned no rows it is the Go zero
value `0`, so no CompactionExpired is raised even if the stored watermark
exceeds `rev` — see the counterexample.) -/
theorem C5_compaction_check (t : Table) (ns nm : Option String) (rev : Int)
    (after : Bool) (cont limit : Int)
    (hp1 : ¬(0 < cont ∧ rev ≤ 0)) (hp2 : ¬(after = true ∧ cont ≠ 0)) :
    ((∃ a b, dbList t ns nm rev after cont limit = .error (.compactionExpired a b)) ↔
      (rev ≠ 0 ∧ (listMeta t ns nm rev after cont limit).ListID ≠ 0 ∧
        (listMeta t ns nm rev after cont limit).ListID <
          (listMeta t ns nm rev after cont limit).CompactionID))
    ∧ (rev = 0 → dbList t ns nm rev after cont limit =
        .ok (listMeta t ns nm rev after cont limit,
             (doList t ns nm rev after cont limit).2)) := by
  constructor
  · unfold dbList
    rw [if_neg hp1, if_neg hp2]
    by_cases hc : rev ≠ 0 ∧ (listMeta t ns nm rev after cont limit).ListID ≠ 0 ∧
        (listMeta t ns nm rev after cont limit).ListID <
          (listMeta t ns nm rev after cont limit).CompactionID
    · rw [if_pos hc]
      exact Iff.intro (fun _ => hc) (fun _ => ⟨_, _, rfl⟩)
    · rw [if_neg hc]
      refine Iff.intro (fun h => ?_) (fun h => absurd h hc)
      obtain ⟨a, b, hab⟩ := h
      cases hab
  · intro h0
    unfold dbList
    rw [if_neg hp1, if_neg hp2, if_neg (by simp [h0])]

/-- The counterexample state for C5: a table whose only row has id 2
(its predecessor, id 1, has been pruned) and whose stored watermark is 2.
This is exactly the state left by create(1), update(2), compact, compact. -/
def t5c : Table := ⟨[⟨2, "x", "n", some 1, "u", false, false, "v"⟩], some 2⟩

/-- C5 counterexample: `list(rev = 1)` on `t5c` succeeds with an empty
result although `rev = 1 ≠ 0`, the computed `ListID = 1 ≠ 0` and the
*stored* compaction watermark is `2 > 1`.  The snapshot query returns no
rows, so the scanned `CompactionID` stays at its zero value and the check
`ListID < CompactionID` compares against 0, not against the stored
watermark — the claim's "exactly when … ListID < the compaction
watermark" is false for the stored watermark. -/
theorem C5_counterexample :
    dbList t5c none none 1 false 0 0 = .ok (⟨1, 0⟩, []) ∧ wmark t5c = 2 := by
  constructor <;> rfl

/-- C5 witness: the amended characterization applied to the state of the
repository's own `TestCompactionError` (three revisions of one object,
watermark raised to 3, `list(rev = 2)`). -/
def t5w : Table :=
  ⟨[⟨1, "test", "default", none, "", true, false, "value1"⟩,
    ⟨2, "test", "default", some 1, "", false, false, "value2"⟩,
    ⟨3, "test", "default", some 2, "", false, false, "value3"⟩], some 3⟩

theorem C5_witness :
    (∃ a b, dbList t5w none none 2 false 0 0 = .error (.compactionExpired a b)) ∧
    dbList t5w none none 0 false 0 0 =
      .ok (listMeta t5w none none 0 false 0 0, (doList t5w none none 0 false 0 0).2) := by
  constructor
  · exact (C5_compaction_check t5w none none 2 false 0 0 (by omega) (by simp)).1.2
      (by refine ⟨by omega, ?_, ?_⟩ <;> decide)
  · exact (C5_compaction_check t5w none none 0 false 0 0 (by omega) (by simp)).2 rfl

/-! ## C3 — compaction order: prune, then advance -/

theorem compactCandidates_nil (t : Table) (h0 : wmark t = 0)
    (hpos : ∀ r ∈ t.rows, 0 < r.id) : compactCandidates t = [] := by
  have hf : t.rows.filter (fun p => t.rows.any fun cur =>
      (cur.previousID == some p.id || (p.id == cur.id && cur.deleted)) &&
      cur.id ≤ wmark t) = [] := by
    rw [List.filter_eq_nil_iff]
    intro p _
    simp only [List.any_eq_true, Bool.and_eq_true, decide_eq_true_eq,
      not_exists, not_and]
    intro cur hcur _
    rw [h0]
    have := hpos cur hcur
    omega
  unfold compactCandidates
  rw [hf]
  rfl

theorem pruneBatch_of_nil (t : Table) (h : compactCandidates t = []) :
    pruneBatch t = (0, t) := by
  unfold pruneBatch
  rw [h]
  simp

theorem pruneLoop_succ (fuel : Nat) (t : Table) (acc : Nat) :
    pruneLoop (fuel + 1) t acc =
      (let p := pruneBatch t
       if p.1 = 0 then (acc, p.2) else pruneLoop fuel p.2 (acc + p.1)) := by
  conv_lhs => rw [pruneLoop]

/-- A freshly populated table for C3: one object created and updated,
one other object created, no compaction watermark yet. -/
def t3ex : Table :=
  ⟨[⟨1, "a", "", none, "u", true, false, "v1"⟩,
    ⟨2, "a", "", some 1, "u", false, false, "v2"⟩,
    ⟨3, "b", "", none, "w", true, false, "v3"⟩], none⟩

/-- C3 (amended): the **db variant** `compact()` prunes first and only
then advances the watermark, so against a freshly populated table (no
compaction watermark yet) its first invocation deletes nothing and only
advances the watermark to `coalesce(max(id), 1)`; a subsequent invocation
prunes (shown on the three-row example `t3ex`, whose superseded first
revision is deleted by the second run).  The **pg variant** advances the
watermark *before* pruning, so its first invocation already prunes — see
the counterexample. -/
theorem C3_db_compact_first_run (t : Table) (h0 : wmark t = 0)
    (hpos : ∀ r ∈ t.rows, 0 < r.id) :
    dbCompact t = (0, { t with compaction := some (dbAdvanceVal t) }) ∧
    (dbCompact t3ex).1 = 0 ∧ (dbCompact (dbCompact t3ex).2).1 = 1 := by
  refine ⟨?_, by decide, by decide⟩
  have hb := pruneBatch_of_nil t (compactCandidates_nil t h0 hpos)
  unfold dbCompact
  rw [pruneLoop_succ, hb]
  rfl

/-- C3 counterexample: on the same freshly populated table `t3ex` the
**pg variant** `compact()` already deletes a row (the superseded first
revision) in its very first invocation, because it advances the watermark
before pruning — contradicting the claim that a single `compact()` against
a freshly populated table performs no useful deletion the first time. -/
theorem C3_counterexample : (pgCompact t3ex).1 = 1 ∧ wmark t3ex = 0 := by
  constructor <;> decide

/-- C3 witness: the amended theorem applied at `t3ex`. -/
theorem C3_witness :
    dbCompact t3ex = (0, { t3ex with compaction := some (dbAdvanceVal t3ex) }) :=
  (C3_db_compact_first_run t3ex (by decide) (by decide)).1

/-! ## Characterizing `get` and `insert` -/

theorem dbList_rev0 (t : Table) (ns nm : Option String) (limit : Int) :
    dbList t ns nm 0 false 0 limit =
      .ok (listMeta t ns nm 0 false 0 limit, (doList t ns nm 0 false 0 limit).2) := by
  unfold dbList
  rw [if_neg (by simp), if_neg (by simp), if_neg (by simp)]

theorem dbGet_eq (t : Table) (ns nm : String) :
    dbGet t ns nm =
      (match (applyLimit 1 (snapshotRows t (getNamespace ns) (some nm) 0 0)).map outRec with
       | [] => .error (.notFound nm)
       | r :: _ => .ok r) := by
  unfold dbGet
  rw [dbList_rev0]
  cases hrecs : (applyLimit 1 (snapshotRows t (getNamespace ns) (some nm) 0 0)).map outRec with
  | nil => simp [doList, listRecs, hrecs]
  | cons a l => simp [doList, listRecs, hrecs]

theorem applyLimit_subset {limit : Int} {l : List Rec} : applyLimit limit l ⊆ l := by
  unfold applyLimit
  split
  · exact List.take_subset _ _
  · exact fun _ h => h

theorem listWhere_iff {ns nm : Option String} {rev cont : Int} {r : Rec} :
    listWhere ns nm rev cont r = true ↔
      nsMatch ns r = true ∧ nmMatch nm r = true ∧ revMatch rev r = true ∧
        contMatch cont r = true := by
  simp [listWhere, Bool.and_eq_true, and_assoc]

theorem nmMatch_some {s : String} {r : Rec} : nmMatch (some s) r = true ↔ r.name = s := by
  simp [nmMatch]

theorem nsMatch_some {s : String} {r : Rec} : nsMatch (some s) r = true ↔ r.nspace = s := by
  simp [nsMatch]

theorem mem_snapshotRows {t : Table} {ns nm : Option String} {rev cont : Int} {r : Rec} :
    r ∈ snapshotRows t ns nm rev cont ↔
      r ∈ t.rows ∧ listWhere ns nm rev cont r = true ∧
      isHead (t.rows.filter (listWhere ns nm rev cont)) r = true ∧
      r.deleted = false := by
  unfold snapshotRows
  rw [List.mem_filter, List.mem_filter]
  constructor
  · rintro ⟨⟨h1, h2⟩, h3⟩
    rw [Bool.and_eq_true] at h3
    exact ⟨h1, h2, h3.1, by simpa using h3.2⟩
  · rintro ⟨h1, h2, h3, h4⟩
    exact ⟨⟨h1, h2⟩, by rw [Bool.and_eq_true]; exact ⟨h3, by simp [h4]⟩⟩

/-- `get` either reports NotFound or returns the projection of a live row
whose name matches. -/
theorem dbGet_cases (t : Table) (ns nm : String) :
    dbGet t ns nm = .error (.notFound nm) ∨
    ∃ q ∈ t.rows, dbGet t ns nm = .ok (outRec q) ∧ q.deleted = false ∧
      q.name = nm := by
  rw [dbGet_eq]
  cases hrecs : (applyLimit 1 (snapshotRows t (getNamespace ns) (some nm) 0 0)).map outRec with
  | nil => exact Or.inl rfl
  | cons a l =>
    refine Or.inr ?_
    have ha : a ∈ (applyLimit 1 (snapshotRows t (getNamespace ns) (some nm) 0 0)).map outRec := by
      rw [hrecs]; exact List.mem_cons_self a l
    obtain ⟨q, hq, rfl⟩ := List.mem_map.1 ha
    have hq' := mem_snapshotRows.1 (applyLimit_subset hq)
    exact ⟨q, hq'.1, rfl, hq'.2.2.2, nmMatch_some.1 (listWhere_iff.1 hq'.2.1).2.1⟩

theorem insertRow_ok {t : Table} {r : Rec} {i : Int} {t' : Table}
    (h : insertRow t r = .ok (i, t')) :
    i = allocId t ∧ t'.rows = t.rows ++ [{ r with id := allocId t }] ∧
      t'.compaction = t.compaction := by
  unfold insertRow at h
  by_cases hv : uniqueViolation t r = true
  · rw [if_pos hv] at h; cases h
  · rw [if_neg hv] at h
    cases h
    exact ⟨rfl, rfl, rfl⟩

theorem dbDoInsert_create (t : Table) (r : Rec) (hid : r.id = 0)
    (hcr : r.created = true) (hprev : r.previousID = none) :
    dbDoInsert t r = insertRow t r := by
  unfold dbDoInsert
  rw [if_neg (by simp [hid]), hprev, hcr]

/-- Every successful db-variant `doInsert` either appends a fresh row at
`max(id)+1` or is the idempotent no-op short circuit, returning the live
head's id over an unchanged table. -/
theorem dbDoInsert_ok_cases {t : Table} {r : Rec} {i : Int} {t' : Table}
    (h : dbDoInsert t r = .ok (i, t')) :
    (i = allocId t ∧ t'.rows = t.rows ++ [{ r with id := allocId t }] ∧
      t'.compaction = t.compaction) ∨
    (t' = t ∧ r.deleted = false ∧ r.created = false ∧
      ∃ q ∈ t.rows, q.deleted = false ∧ i = q.id) := by
  unfold dbDoInsert at h
  by_cases hid : r.id ≠ 0
  · rw [if_pos hid] at h; cases h
  rw [if_neg hid] at h
  rcases hprev : r.previousID with _ | p <;> rcases hcr : r.created with _ | _ <;>
      rw [hprev, hcr] at h <;> simp only [] at h
  · cases h
  · have he := insertRow_ok h
    rw [hprev, hcr] at he
    exact Or.inl he
  · rcases dbGet_cases t r.nspace r.name with hg | ⟨q, hq, hg, hqd, _⟩
    · rw [hg] at h; simp only [] at h; cases h
    · rw [hg] at h
      simp only [] at h
      by_cases h1 : (outRec q).id ≠ p
      · rw [if_pos h1] at h; cases h
      rw [if_neg h1] at h
      by_cases h2 : (outRec q).uid ≠ r.uid
      · rw [if_pos h2] at h; cases h
      rw [if_neg h2] at h
      by_cases h3 : r.deleted = false ∧ (outRec q).value = r.value
      · rw [if_pos h3] at h
        cases h
        exact Or.inr ⟨rfl, h3.1, rfl, q, hq, hqd, rfl⟩
      · rw [if_neg h3] at h
        have he := insertRow_ok h
        rw [hprev, hcr] at he
        exact Or.inl he
  · cases h

theorem exMap_ok {α β : Type} {f : α → β} {e : Except Err α} {y : β}
    (h : exMap f e = .ok y) : ∃ a, e = .ok a ∧ y = f a := by
  cases e with
  | error => cases h
  | ok a => exact ⟨a, rfl, by cases h; rfl⟩

theorem exMap_of_ok {α β : Type} (f : α → β) {e : Except Err α} {a : α}
    (h : e = .ok a) : exMap f e = .ok (f a) := by rw [h]; rfl

theorem exMap_of_error {α β : Type} (f : α → β) {e : Except Err α} {err : Err}
    (h : e = .error err) : exMap f e = .error err := by rw [h]; rfl

/-! ## C4 — the idempotent no-op update short circuit -/

/-- C4 (amended, **db variant**): a non-creation `doInsert` whose
`previousID` equals the current head's id, whose uid matches, whose value
equals the stored value and whose record is not a tombstone returns the
head's id and leaves the table unchanged — no row is inserted.  The **pg
variant** has no such short circuit and always inserts; see the
counterexample. -/
theorem C4_db_noop_update (t : Table) (r ex : Rec)
    (hid : r.id = 0) (hcr : r.created = false) (hprev : r.previousID = some ex.id)
    (hget : dbGet t r.nspace r.name = .ok ex) (huid : r.uid = ex.uid)
    (hdel : r.deleted = false) (hval : r.value = ex.value) :
    dbDoInsert t r = .ok (ex.id, t) := by
  unfold dbDoInsert
  rw [if_neg (by simp [hid]), hprev, hcr]
  simp only []
  rw [hget]
  simp only []
  rw [if_neg (by simp), if_neg (by simp [huid]), if_pos ⟨hdel, hval.symm⟩]

def row4 : Rec := ⟨1, "x", "n", none, "u", true, false, "v"⟩

def t4c : Table := ⟨[row4], none⟩

def rec4 : Rec := ⟨0, "x", "n", some 1, "u", false, false, "v"⟩

/-- C4 counterexample: the **pg variant** `doInsert`, given the identical
incoming value, does *not* short-circuit: it returns a fresh id `2` (not
the head's id `1`) and appends a new row — the table changes. -/
theorem C4_counterexample :
    pgDoInsert t4c rec4 =
      .ok (2, ⟨[row4, ⟨2, "x", "n", some 1, "u", false, false, "v"⟩], none⟩) ∧
    (2 : Int) ≠ row4.id := ⟨rfl, by decide⟩

/-- C4 witness: the db-variant short circuit on the same concrete state. -/
theorem C4_witness : dbDoInsert t4c rec4 = .ok (row4.id, t4c) :=
  C4_db_noop_update t4c rec4 row4 rfl rfl rfl rfl rfl rfl rfl

/-! ## C8 — Delete with an empty resourceVersion -/

/-- An update-shaped insert whose `previousID` is 0 always fails with the
Conflict error (`ResourceVersionMismatch`): a well-formed table has no row
with id 0, so either the object does not exist (NotFound → Conflict) or
its head id differs from 0. -/
theorem dbDoInsert_prev_zero (t : Table) (r : Rec) (hwf : t.WF) (hid : r.id = 0)
    (hcr : r.created = false) (hprev : r.previousID = some 0) :
    dbDoInsert t r = .error (.conflict r.name) := by
  unfold dbDoInsert
  rw [if_neg (by simp [hid]), hprev, hcr]
  simp only []
  rcases dbGet_cases t r.nspace r.name with hg | ⟨q, hq, hg, _, _⟩
  · rw [hg]
  · rw [hg]
    simp only []
    rw [if_pos (show (outRec q).id ≠ 0 by
      have := hwf.2 q hq
      simp only [outRec]
      omega)]

theorem dbDelete_prev_zero (t : Table) (r : Rec) (hwf : t.WF) (hid : r.id = 0)
    (hprev : r.previousID = some 0) :
    dbDelete t r = .error (.conflict r.name) := by
  unfold dbDelete
  rw [hprev]
  simp only []
  exact exMap_of_error _ (dbDoInsert_prev_zero t _ hwf hid rfl rfl)

theorem strategyDoUpdate_empty_rv (t : Table) (o : Obj) (hwf : t.WF)
    (hrv : o.resourceVersion = "") (ug : Bool) :
    strategyDoUpdate t o ug = .error (.conflict o.name) := by
  unfold strategyDoUpdate
  rw [hrv]
  have hp : parseRv "" = .ok 0 := rfl
  rw [hp]
  simp only []
  by_cases hc : o.deletionStamp = true ∧ o.finalizers = []
  · rw [if_pos hc]
    exact exMap_of_error _ (dbDelete_prev_zero t _ hwf rfl rfl)
  · rw [if_neg hc]
    exact exMap_of_error _ (dbDoInsert_prev_zero t _ hwf rfl rfl rfl)

/-- C8 (amended, **db variant**): `Delete` of an object whose submitted
resourceVersion is the empty string fails with a Conflict error and does
not change the table (the model returns no successor state and the Go
transaction rolls back).  The **pg variant** instead *panics* on the
`previousID <= 0` assertion in its `delete`; see the counterexample. -/
theorem C8_db_delete_requires_rv (t : Table) (o : Obj) (hwf : t.WF)
    (hrv : o.resourceVersion = "") :
    strategyDelete t o = .error (.conflict o.name) := by
  unfold strategyDelete
  by_cases hds : o.deletionStamp
  · rw [if_pos hds]
    exact strategyDoUpdate_empty_rv t o hwf hrv false
  · rw [if_neg hds]
    exact strategyDoUpdate_empty_rv t { o with deletionStamp := true } hwf hrv false

def o8 : Obj := ⟨"testname1", "ns1", "u1", 1, "", false, [], "p"⟩

def t8 : Table := ⟨[⟨1, "testname1", "ns1", none, "u1", true, false, "blob"⟩], none⟩

/-- C8 counterexample: the **pg variant** `Delete` of the same object
(empty resourceVersion) does not produce a Conflict error — it hits the Go
`panic("previousID must be set and greater than zero")` in `(*db).delete`. -/
theorem C8_counterexample :
    pgStrategyDelete t8 o8 =
      .error (.crash "previousID must be set and greater than zero") := rfl

/-- C8 witness: the db-variant theorem at a concrete store and object. -/
theorem C8_witness : strategyDelete t8 o8 = .error (.conflict "testname1") :=
  C8_db_delete_requires_rv t8 o8 (by constructor <;> decide) rfl

/-! ## C7 — Create -/

/-- C7 (amended, **db variant**): `Create` requires a non-empty uid; on
success it has set `generation = 1`, reset the *stored* blob's
resourceVersion to `"0"` before encoding, inserted a creation row at
`max(id)+1`, and returned a copy of the object whose resourceVersion is
the new row id.  The **pg variant** performs no resourceVersion reset, so
its stored blob keeps the caller's resourceVersion; see the
counterexample. -/
theorem C7_db_create (t : Table) (o : Obj) :
    (o.uid = "" → strategyCreate t o = .error (.invalidArgument "object must have a UID")) ∧
    (∀ o' t', strategyCreate t o = .ok (o', t') →
      o' = { o with generation := 1, resourceVersion := toString (allocId t) } ∧
      t'.rows = t.rows ++
        [⟨allocId t, o.name, o.nspace, none, o.uid, true, false,
          encodeObj { o with generation := 1, resourceVersion := "0" }⟩] ∧
      t'.compaction = t.compaction) := by
  constructor
  · intro h
    unfold strategyCreate
    rw [if_pos h]
  · intro o' t' h
    unfold strategyCreate at h
    by_cases hu : o.uid = ""
    · rw [if_pos hu] at h; cases h
    · rw [if_neg hu] at h
      obtain ⟨⟨i, t''⟩, hd, hy⟩ := exMap_ok h
      rw [Prod.mk.injEq] at hy
      obtain ⟨rfl, rfl⟩ := hy
      rcases dbDoInsert_ok_cases hd with ⟨hi, hrows, hcomp⟩ | ⟨-, -, hcr, -⟩
      · subst hi
        exact ⟨rfl, hrows, hcomp⟩
      · cases hcr

def o7 : Obj := ⟨"x", "n", "u", 0, "7", false, [], "pl"⟩

/-- C7 counterexample: the **pg variant** `Create` of an object carrying
resourceVersion `"7"` stores a blob that still contains `"7"` — the
stored value *does* carry a resourceVersion, and it is not the reset
encoding with `"0"`. -/
theorem C7_counterexample :
    pgStrategyCreate Table.empty o7 =
      .ok (⟨"x", "n", "u", 1, "1", false, [], "pl"⟩,
        ⟨[⟨1, "x", "n", none, "u", true, false,
          encodeObj { o7 with generation := 1 }⟩], none⟩) ∧
    encodeObj { o7 with generation := 1 } ≠
      encodeObj { o7 with generation := 1, resourceVersion := "0" } :=
  ⟨rfl, by decide⟩

/-- C7 witness: the db-variant characterization at a concrete create. -/
theorem C7_witness :
    strategyCreate Table.empty o7 =
        .ok (⟨"x", "n", "u", 1, "1", false, [], "pl"⟩,
          ⟨[⟨1, "x", "n", none, "u", true, false,
            encodeObj { o7 with generation := 1, resourceVersion := "0" }⟩], none⟩) ∧
      (o7.uid = "" → False) := by
  refine ⟨?_, by decide⟩
  have h : strategyCreate Table.empty o7 = .ok
      (⟨"x", "n", "u", 1, "1", false, [], "pl"⟩,
        ⟨[⟨1, "x", "n", none, "u", true, false,
          encodeObj { o7 with generation := 1, resourceVersion := "0" }⟩], none⟩) := rfl
  obtain ⟨ho, hrows, hcomp⟩ := (C7_db_create Table.empty o7).2 _ _ h
  exact h

/-! ## C1 — monotonicity of returned resourceVersions -/

theorem clearCreated_rows (t : Table) (ns nm : String) (i : Int) :
    ((clearCreated t ns nm i).rows.length = t.rows.length) ∧
    ∀ q ∈ (clearCreated t ns nm i).rows, ∃ q₀ ∈ t.rows, q.id = q₀.id := by
  unfold clearCreated
  refine ⟨List.length_map _ _, fun q hq => ?_⟩
  obtain ⟨q₀, hq₀, hmap⟩ := List.mem_map.1 hq
  refine ⟨q₀, hq₀, ?_⟩
  subst hmap
  split <;> rfl

theorem dbDelete_ok_cases {t : Table} {r : Rec} {i : Int} {t' : Table}
    (h : dbDelete t r = .ok (i, t')) :
    i = allocId t ∧ t'.rows.length = t.rows.length + 1 ∧
      ∃ nr ∈ t'.rows, nr.id = allocId t := by
  unfold dbDelete at h
  rcases hprev : r.previousID with _ | p <;> rw [hprev] at h <;> simp only [] at h
  · cases h
  obtain ⟨⟨j, t''⟩, hd, hy⟩ := exMap_ok h
  rw [Prod.mk.injEq] at hy
  obtain ⟨rfl, rfl⟩ := hy
  rcases dbDoInsert_ok_cases hd with ⟨hi, hrows, -⟩ | ⟨-, habs, -, -⟩
  · subst hi
    refine ⟨rfl, ?_, ?_⟩
    · rw [(clearCreated_rows t'' _ _ _).1, hrows]
      simp
    · have hnew : ∃ nr ∈ t''.rows, nr.id = allocId t := by
        rw [hrows]
        exact ⟨_, List.mem_append_right _ (List.mem_singleton_self _), rfl⟩
      obtain ⟨nr, hnr, hnrid⟩ := hnew
      refine ⟨_, List.mem_map_of_mem _ hnr, ?_⟩
      simp only []
      split <;> exact hnrid
  · cases habs

/-- C1 (amended): every *successful* strategy write (Create / Update /
UpdateStatus / Delete, db variant) either appends exactly one row whose
freshly allocated id `max(id)+1` is strictly greater than every existing
row id and returns that id as the resourceVersion — so the
resourceVersions of successive row-inserting writes are strictly
increasing — or is the idempotent no-op update, which leaves the table
unchanged and returns the id of an *existing* live row; in the latter
case the returned resourceVersion is not strictly greater than previously
returned ones (see the counterexample). -/
theorem C1_write_rv_monotonic (t : Table) (op : WriteOp) (o' : Obj) (t' : Table)
    (h : applyWrite t op = .ok (o', t')) :
    ((∃ i : Int, o'.resourceVersion = toString i ∧ i = allocId t ∧
        (∀ r ∈ t.rows, r.id < i) ∧
        t'.rows.length = t.rows.length + 1 ∧ ∃ nr ∈ t'.rows, nr.id = i)) ∨
    (t' = t ∧ ∃ q ∈ t.rows, q.deleted = false ∧
        o'.resourceVersion = toString q.id) := by
  have main : ∀ (o₀ : Obj) (ug : Bool),
      strategyDoUpdate t o₀ ug = .ok (o', t') →
      ((∃ i : Int, o'.resourceVersion = toString i ∧ i = allocId t ∧
          (∀ r ∈ t.rows, r.id < i) ∧
          t'.rows.length = t.rows.length + 1 ∧ ∃ nr ∈ t'.rows, nr.id = i)) ∨
      (t' = t ∧ ∃ q ∈ t.rows, q.deleted = false ∧
          o'.resourceVersion = toString q.id) := by
    intro o₀ ug hu
    unfold strategyDoUpdate at hu
    cases hrv : parseRv o₀.resourceVersion with
    | error e => rw [hrv] at hu; cases hu
    | ok rv =>
      rw [hrv] at hu
      simp only [] at hu
      obtain ⟨⟨i, t''⟩, hd, hy⟩ := exMap_ok hu
      rw [Prod.mk.injEq] at hy
      obtain ⟨rfl, rfl⟩ := hy
      split at hd
      · obtain ⟨hi, hlen, nr, hnr, hnrid⟩ := dbDelete_ok_cases hd
        subst hi
        exact Or.inl ⟨allocId t, rfl, rfl, fun r hr => lt_allocId hr, hlen,
          nr, hnr, hnrid⟩
      · rcases dbDoInsert_ok_cases hd with ⟨hi, hrows, -⟩ | ⟨hteq, -, -, q, hq, hqd, hiq⟩
        · subst hi
          refine Or.inl ⟨allocId t, rfl, rfl, fun r hr => lt_allocId hr, ?_, ?_⟩
          · rw [hrows]; simp
          · rw [hrows]
            exact ⟨_, List.mem_append_right _ (List.mem_singleton_self _), rfl⟩
        · subst hiq
          exact Or.inr ⟨hteq, q, hq, hqd, rfl⟩
  cases op with
  | create o =>
    unfold applyWrite strategyCreate at h
    simp only [] at h
    by_cases hu : o.uid = ""
    · rw [if_pos hu] at h; cases h
    · rw [if_neg hu] at h
      obtain ⟨⟨i, t''⟩, hd, hy⟩ := exMap_ok h
      rw [Prod.mk.injEq] at hy
      obtain ⟨rfl, rfl⟩ := hy
      rcases dbDoInsert_ok_cases hd with ⟨hi, hrows, -⟩ | ⟨-, -, hcr, -⟩
      · subst hi
        refine Or.inl ⟨allocId t, rfl, rfl, fun r hr => lt_allocId hr, ?_, ?_⟩
        · rw [hrows]; simp
        · rw [hrows]
          exact ⟨_, List.mem_append_right _ (List.mem_singleton_self _), rfl⟩
      · cases hcr
  | update o => exact main o true h
  | updateStatus o => exact main o false h
  | del o =>
    unfold applyWrite strategyDelete at h
    simp only [] at h
    split at h
    · exact main o false h
    · exact main _ false h

def o1A : Obj := ⟨"a", "n", "u", 0, "", false, [], "p"⟩

def t1A : Table :=
  ⟨[⟨1, "a", "n", none, "u", true, false,
    encodeObj ⟨"a", "n", "u", 1, "0", false, [], "p"⟩⟩], none⟩

/-- C1 counterexample: a successful `Create` followed by a successful
no-op `UpdateStatus` of the same object returns resourceVersion `"1"`
*twice* — the resourceVersions of successive successful writes are not
strictly increasing, because the idempotent short circuit of the db
variant allocates no id. -/
theorem C1_counterexample :
    applyWrite Table.empty (.create o1A) =
      .ok (⟨"a", "n", "u", 1, "1", false, [], "p"⟩, t1A) ∧
    applyWrite t1A (.updateStatus ⟨"a", "n", "u", 1, "1", false, [], "p"⟩) =
      .ok (⟨"a", "n", "u", 1, "1", false, [], "p"⟩, t1A) := ⟨rfl, rfl⟩

/-- C1 witness: the dichotomy at a concrete inserting write. -/
theorem C1_witness :
    (∃ i : Int, (⟨"a", "n", "u", 1, "1", false, [], "p"⟩ : Obj).resourceVersion =
        toString i ∧ i = allocId Table.empty ∧
        (∀ r ∈ Table.empty.rows, r.id < i) ∧
        t1A.rows.length = Table.empty.rows.length + 1 ∧
        ∃ nr ∈ t1A.rows, nr.id = i) ∨
    (t1A = Table.empty ∧ ∃ q ∈ Table.empty.rows, q.deleted = false ∧
        (⟨"a", "n", "u", 1, "1", false, [], "p"⟩ : Obj).resourceVersion =
          toString q.id) :=
  C1_write_rv_monotonic Table.empty (.create o1A) _ _ rfl

/-! ## C2 — `get` returns the latest row of the key -/

/-- The rows of one `(namespace, name)` key. -/
def keyRows (t : Table) (ns nm : String) : List Rec :=
  t.rows.filter fun r => r.nspace == ns && r.name == nm

/-- The row with the maximal id (the "latest" revision). -/
def maxRow : List Rec → Option Rec
  | [] => none
  | r :: rs =>
    match maxRow rs with
    | none => some r
    | some m => if m.id < r.id then some r else some m

theorem maxRow_mem : ∀ {l : List Rec} {m : Rec}, maxRow l = some m → m ∈ l := by
  intro l
  induction l with
  | nil => intro m h; cases h
  | cons r rs ih =>
    intro m h
    unfold maxRow at h
    cases hrs : maxRow rs with
    | none => rw [hrs] at h; cases h; exact List.mem_cons_self _ _
    | some m' =>
      rw [hrs] at h
      simp only [] at h
      split at h <;> cases h
      · exact List.mem_cons_self _ _
      · exact List.mem_cons_of_mem _ (ih hrs)

theorem maxRow_nil_iff {l : List Rec} : maxRow l = none ↔ l = [] := by
  cases l with
  | nil => simp [maxRow]
  | cons a rs =>
    constructor
    · intro h
      unfold maxRow at h
      cases hrs : maxRow rs with
      | none => rw [hrs] at h; cases h
      | some m =>
        rw [hrs] at h
        simp only [] at h
        by_cases hlt : m.id < a.id
        · rw [if_pos hlt] at h; cases h
        · rw [if_neg hlt] at h; cases h
    · intro h; cases h

theorem maxRow_ge : ∀ {l : List Rec} {m : Rec}, maxRow l = some m →
    ∀ r ∈ l, r.id ≤ m.id := by
  intro l
  induction l with
  | nil => intro m _ r hr; cases hr
  | cons a rs ih =>
    intro m h r hr
    unfold maxRow at h
    cases hrs : maxRow rs with
    | none =>
      rw [hrs] at h
      cases h
      rcases List.mem_cons.1 hr with rfl | hr'
      · exact le_refl _
      · rw [maxRow_nil_iff.1 hrs] at hr'
        cases hr'
    | some m' =>
      rw [hrs] at h
      simp only [] at h
      rcases List.mem_cons.1 hr with rfl | hr'
      · by_cases hlt : m'.id < r.id
        · rw [if_pos hlt] at h; cases h; exact le_refl _
        · rw [if_neg hlt] at h; cases h; omega
      · have := ih hrs r hr'
        by_cases hlt : m'.id < a.id
        · rw [if_pos hlt] at h; cases h; omega
        · rw [if_neg hlt] at h; cases h; omega

/-- A filter that keeps exactly one element of a strictly id-sorted list
returns the singleton. -/
theorem filter_eq_singleton_of_unique {l : List Rec} {p : Rec → Bool} {h : Rec}
    (hmem : h ∈ l) (hp : ∀ r ∈ l, p r = true ↔ r = h)
    (hsorted : l.Pairwise fun a b => a.id < b.id) : l.filter p = [h] := by
  induction l with
  | nil => cases hmem
  | cons x xs ih =>
    rcases List.mem_cons.1 hmem with rfl | hmem'
    · rw [List.filter_cons_of_pos ((hp _ (List.mem_cons_self _ _)).2 rfl)]
      have : xs.filter p = [] := by
        rw [List.filter_eq_nil_iff]
        intro r hr hpr
        have hrh : r = h := (hp r (List.mem_cons_of_mem _ hr)).1 hpr
        subst hrh
        have := (List.pairwise_cons.1 hsorted).1 _ hr
        omega
      rw [this]
    · have hx : ¬p x = true := by
        intro hpx
        have hxh : x = h := (hp x (List.mem_cons_self _ _)).1 hpx
        subst hxh
        have := (List.pairwise_cons.1 hsorted).1 _ hmem'
        omega
      rw [List.filter_cons_of_neg hx]
      exact ih hmem' (fun r hr => hp r (List.mem_cons_of_mem _ hr))
        (List.pairwise_cons.1 hsorted).2

theorem mem_keyRows {t : Table} {ns nm : String} {r : Rec} :
    r ∈ keyRows t ns nm ↔ r ∈ t.rows ∧ r.nspace = ns ∧ r.name = nm := by
  unfold keyRows
  rw [List.mem_filter]
  simp [Bool.and_eq_true]

theorem keyRows_sorted {t : Table} (hwf : t.WF) (ns nm : String) :
    (keyRows t ns nm).Pairwise fun a b => a.id < b.id :=
  List.Pairwise.sublist (List.filter_sublist _) hwf.1

/-- The snapshot of a single fully-specified key is its latest row, if
that row is not a tombstone. -/
theorem snapshot_single_key (t : Table) (hwf : t.WF) (ns nm : String) :
    snapshotRows t (some ns) (some nm) 0 0 =
      (match maxRow (keyRows t ns nm) with
       | none => []
       | some h => if h.deleted then [] else [h]) := by
  have hfil : t.rows.filter (listWhere (some ns) (some nm) 0 0) = keyRows t ns nm := by
    unfold keyRows
    apply List.filter_congr
    intro r _
    simp [listWhere, revMatch, contMatch, nsMatch, nmMatch]
  have hsnap : snapshotRows t (some ns) (some nm) 0 0 =
      (keyRows t ns nm).filter fun r => isHead (keyRows t ns nm) r && !r.deleted := by
    unfold snapshotRows
    rw [hfil]
  rw [hsnap]
  cases hm : maxRow (keyRows t ns nm) with
  | none =>
    rw [maxRow_nil_iff.1 hm]
    rfl
  | some h =>
    have hhm := maxRow_mem hm
    have hge := maxRow_ge hm
    have hsk : ∀ q ∈ keyRows t ns nm, ∀ r ∈ keyRows t ns nm, sameKey q r = true := by
      intro q hq r hr
      obtain ⟨-, hq1, hq2⟩ := mem_keyRows.1 hq
      obtain ⟨-, hr1, hr2⟩ := mem_keyRows.1 hr
      simp [sameKey, hq1, hq2, hr1, hr2]
    have hhead : ∀ r ∈ keyRows t ns nm, isHead (keyRows t ns nm) r = true ↔ r = h := by
      intro r hr
      unfold isHead
      rw [List.all_eq_true]
      constructor
      · intro hall
        have h1 := hall h hhm
        rw [hsk h hhm r hr] at h1
        simp only [Bool.not_true, Bool.false_or, decide_eq_true_eq] at h1
        have h2 := hge r hr
        exact pairwise_id_inj (keyRows_sorted hwf ns nm) hr hhm (by omega)
      · rintro rfl
        intro q hq
        have := hge q hq
        simp [this]
    simp only []
    by_cases hd : h.deleted
    · rw [if_pos hd, List.filter_eq_nil_iff]
      intro r hr hpr
      rw [Bool.and_eq_true] at hpr
      have hrh := (hhead r hr).1 hpr.1
      subst hrh
      simp [hd] at hpr
    · rw [if_neg hd]
      apply filter_eq_singleton_of_unique hhm _ (keyRows_sorted hwf ns nm)
      intro r hr
      rw [Bool.and_eq_true]
      constructor
      · rintro ⟨h1, -⟩
        exact (hhead r hr).1 h1
      · rintro rfl
        exact ⟨(hhead r hr).2 rfl, by simp [hd]⟩

/-- C2 (amended): for a **non-empty** namespace, `get(namespace, name)`
returns the decoded latest row of the key when that row is not a
tombstone, and NotFound when the key has no rows or its latest row is a
tombstone — it never returns an older non-deleted revision beneath a
tombstone.  (When the namespace is empty the namespace filter is dropped
and the lookup matches the name across all namespaces — see the
counterexample and C10.) -/
theorem C2_get_latest (t : Table) (hwf : t.WF) (ns nm : String) (hns : ns ≠ "") :
    dbGet t ns nm =
      (match maxRow (keyRows t ns nm) with
       | none => .error (.notFound nm)
       | some h => if h.deleted then .error (.notFound nm) else .ok (outRec h)) := by
  rw [dbGet_eq]
  have hg : getNamespace ns = some ns := if_neg hns
  rw [hg, snapshot_single_key t hwf ns nm]
  cases maxRow (keyRows t ns nm) with
  | none => rfl
  | some h =>
    simp only []
    by_cases hd : h.deleted = true
    · rw [if_pos hd, if_pos hd]
      rfl
    · rw [if_neg hd, if_neg hd]
      rfl

def t2c : Table := ⟨[⟨1, "x", "a", none, "u", true, false, "v"⟩], none⟩

/-- C2 counterexample: `t2c` has no row at all for the key `("", "x")`,
so by the claim `get("", "x")` must be NotFound — but the code drops the
namespace filter for an empty namespace and returns the row that lives in
namespace `"a"`. -/
theorem C2_counterexample :
    dbGet t2c "" "x" = .ok (outRec ⟨1, "x", "a", none, "u", true, false, "v"⟩) ∧
    ∀ r ∈ t2c.rows, r.nspace ≠ "" := by
  constructor
  · rfl
  · decide

def t2w : Table :=
  ⟨[⟨1, "x", "n", none, "u", true, false, "v1"⟩,
    ⟨2, "x", "n", some 1, "u", false, false, "v2"⟩,
    ⟨3, "x", "n", some 2, "u", false, true, "v2"⟩], none⟩

/-- C2 witness: on a key whose latest row is a tombstone, `get` is
NotFound even though older non-deleted revisions exist beneath it. -/
theorem C2_witness : dbGet t2w "n" "x" = .error (.notFound "x") := by
  rw [C2_get_latest t2w (by constructor <;> decide) "n" "x" (by decide)]
  rfl

/-! ## C10 — `get` with an empty namespace matches all namespaces -/

/-- `h` is the live head of its own namespace for the name `nm`: it is a
row of the table with that name, not a tombstone, and no row of the same
name *and namespace* has a larger id. -/
def isLiveHead (t : Table) (nm : String) (h : Rec) : Prop :=
  h ∈ t.rows ∧ h.name = nm ∧ h.deleted = false ∧
    ∀ q ∈ t.rows, q.name = nm → q.nspace = h.nspace → q.id ≤ h.id

theorem mem_liveHeads {t : Table} {nm : String} {q : Rec} :
    q ∈ snapshotRows t none (some nm) 0 0 ↔ isLiveHead t nm q := by
  rw [mem_snapshotRows]
  unfold isLiveHead
  constructor
  · rintro ⟨hmem, hw, hh, hd⟩
    have hnm : q.name = nm := nmMatch_some.1 (listWhere_iff.1 hw).2.1
    refine ⟨hmem, hnm, hd, ?_⟩
    intro p hp hpnm hpns
    have hpw : listWhere none (some nm) 0 0 p = true :=
      listWhere_iff.2 ⟨by simp [nsMatch], nmMatch_some.2 hpnm,
        by simp [revMatch], by simp [contMatch]⟩
    have := List.all_eq_true.1 hh p (List.mem_filter.2 ⟨hp, hpw⟩)
    have hsk : sameKey p q = true := by
      simp [sameKey, hpnm, hnm, hpns]
    rw [hsk] at this
    simpa using this
  · rintro ⟨hmem, hnm, hd, hmax⟩
    refine ⟨hmem, listWhere_iff.2 ⟨by simp [nsMatch], nmMatch_some.2 hnm,
      by simp [revMatch], by simp [contMatch]⟩, ?_, hd⟩
    unfold isHead
    rw [List.all_eq_true]
    intro p hp
    obtain ⟨hp', hpw⟩ := List.mem_filter.1 hp
    by_cases hns : p.nspace = q.nspace
    · have hple := hmax p hp' (nmMatch_some.1 (listWhere_iff.1 hpw).2.1) hns
      simp [hple]
    · have : sameKey p q = false := by
        simp [sameKey]
        intro _
        exact hns
      simp [this]

theorem snapshotRows_sorted {t : Table} (hwf : t.WF) {ns nm : Option String}
    {rev cont : Int} :
    (snapshotRows t ns nm rev cont).Pairwise fun a b => a.id < b.id := by
  unfold snapshotRows
  exact List.Pairwise.sublist (List.filter_sublist _)
    (List.Pairwise.sublist (List.filter_sublist _) hwf.1)

theorem dbGet_empty_nil {t : Table} {nm : String}
    (hL : snapshotRows t none (some nm) 0 0 = []) :
    dbGet t "" nm = .error (.notFound nm) := by
  rw [dbGet_eq]
  have hg : getNamespace "" = none := rfl
  rw [hg, hL]
  rfl

theorem dbGet_empty_cons {t : Table} {nm : String} {h0 : Rec} {rest : List Rec}
    (hL : snapshotRows t none (some nm) 0 0 = h0 :: rest) :
    dbGet t "" nm = .ok (outRec h0) := by
  rw [dbGet_eq]
  have hg : getNamespace "" = none := rfl
  rw [hg, hL]
  rfl

/-- C10: `get` with an empty namespace drops the namespace filter, so it
matches the name across **all** namespaces and returns (the projection
of) the live head row with the smallest id among all namespaces' live
heads — not only cluster-scoped rows. -/
theorem C10_get_all_namespaces (t : Table) (hwf : t.WF) (nm : String) (r : Rec) :
    dbGet t "" nm = .ok r ↔
      ∃ h, isLiveHead t nm h ∧ (∀ q, isLiveHead t nm q → h.id ≤ q.id) ∧
        r = outRec h := by
  constructor
  · intro hok
    cases hL : snapshotRows t none (some nm) 0 0 with
    | nil => rw [dbGet_empty_nil hL] at hok; cases hok
    | cons h0 rest =>
      rw [dbGet_empty_cons hL] at hok
      cases hok
      refine ⟨h0, mem_liveHeads.1 (hL ▸ List.mem_cons_self h0 rest), ?_, rfl⟩
      intro q hq
      have hqL : q ∈ snapshotRows t none (some nm) 0 0 := mem_liveHeads.2 hq
      rw [hL] at hqL
      rcases List.mem_cons.1 hqL with rfl | hq'
      · exact le_refl _
      · have hs := @snapshotRows_sorted t hwf none (some nm) 0 0
        rw [hL] at hs
        exact le_of_lt ((List.pairwise_cons.1 hs).1 q hq')
  · rintro ⟨h, hlh, hmin, rfl⟩
    cases hL : snapshotRows t none (some nm) 0 0 with
    | nil =>
      have : h ∈ snapshotRows t none (some nm) 0 0 := mem_liveHeads.2 hlh
      rw [hL] at this
      cases this
    | cons h0 rest =>
      have hh0 : isLiveHead t nm h0 := mem_liveHeads.1 (hL ▸ List.mem_cons_self h0 rest)
      have h1 : h.id ≤ h0.id := hmin h0 hh0
      have h2 : h0.id ≤ h.id := by
        have hhL : h ∈ snapshotRows t none (some nm) 0 0 := mem_liveHeads.2 hlh
        rw [hL] at hhL
        rcases List.mem_cons.1 hhL with rfl | hh'
        · exact le_refl _
        · have hs := @snapshotRows_sorted t hwf none (some nm) 0 0
          rw [hL] at hs
          exact le_of_lt ((List.pairwise_cons.1 hs).1 h hh')
      have : h = h0 := pairwise_id_inj hwf.1 hlh.1 hh0.1 (by omega)
      rw [dbGet_empty_cons hL, this]

def t10 : Table :=
  ⟨[⟨1, "x", "a", none, "u1", true, false, "v1"⟩,
    ⟨2, "x", "b", none, "u2", true, false, "v2"⟩], none⟩

/-- C10 witness: with the name `"x"` living in two namespaces, the
empty-namespace `get` returns the smallest-id live head (namespace `"a"`,
id 1), not a cluster-scoped row. -/
theorem C10_witness :
    ∃ h, isLiveHead t10 "x" h ∧ (∀ q, isLiveHead t10 "x" q → h.id ≤ q.id) ∧
      outRec ⟨1, "x", "a", none, "u1", true, false, "v1"⟩ = outRec h :=
  (C10_get_all_namespaces t10 (by constructor <;> decide) "x" _).1 rfl

/-! ## C9 — tail mode feeds watch -/

theorem doList_snd (t : Table) (ns nm : Option String) (rev : Int) (after : Bool)
    (cont limit : Int) :
    (doList t ns nm rev after cont limit).2 = listRecs t ns nm rev after cont limit := by
  unfold doList
  split
  · rename_i hemp
    rw [List.isEmpty_iff] at hemp
    exact hemp.symm
  · rfl

theorem doList_after (t : Table) (ns nm : Option String) (rev : Int) :
    (doList t ns nm rev true 0 0).2 = (afterRows t ns nm rev).map outRec := by
  rw [doList_snd]
  unfold listRecs
  rw [if_pos rfl]
  have : applyLimit 0 (afterRows t ns nm rev) = afterRows t ns nm rev := by
    unfold applyLimit
    rw [if_neg (by omega)]
  rw [this]

/-- C9: a successful tail-mode call `list(after = true, rev)` (the only
tail-mode call sites are the watch path, which passes `cont = 0` and
`limit = 0`) returns exactly the rows with `id > rev` that pass the
namespace/name filters, in strictly ascending id order, tombstones
included (there is no `deleted = false` filter); every returned record
has `id > rev`, so a Watch started at resourceVersion `rev` only ever
emits events for rows with `id > rev` and never re-emits rows with
`id ≤ rev`. -/
theorem C9_tail_mode (t : Table) (hwf : t.WF) (ns nm : Option String) (rev : Int)
    (meta : TableMeta) (recs : List Rec)
    (h : dbList t ns nm rev true 0 0 = .ok (meta, recs)) :
    recs = (afterRows t ns nm rev).map outRec ∧
    (∀ r, r ∈ recs ↔ ∃ q ∈ t.rows, nsMatch ns q = true ∧ nmMatch nm q = true ∧
        rev < q.id ∧ r = outRec q) ∧
    recs.Pairwise (fun a b => a.id < b.id) ∧
    (∀ r ∈ recs, rev < r.id) := by
  have hrecs : recs = (afterRows t ns nm rev).map outRec := by
    unfold dbList at h
    rw [if_neg (by omega), if_neg (by simp)] at h
    split at h
    · cases h
    · cases h
      exact doList_after t ns nm rev
  have hmem : ∀ r, r ∈ recs ↔ ∃ q ∈ t.rows, nsMatch ns q = true ∧
      nmMatch nm q = true ∧ rev < q.id ∧ r = outRec q := by
    intro r
    rw [hrecs, List.mem_map]
    constructor
    · rintro ⟨q, hq, rfl⟩
      obtain ⟨hq', hcond⟩ := List.mem_filter.1 hq
      simp only [Bool.and_eq_true, decide_eq_true_eq] at hcond
      exact ⟨q, hq', hcond.1.1, hcond.1.2, hcond.2, rfl⟩
    · rintro ⟨q, hq', h1, h2, h3, rfl⟩
      refine ⟨q, List.mem_filter.2 ⟨hq', ?_⟩, rfl⟩
      simp only [Bool.and_eq_true, decide_eq_true_eq]
      exact ⟨⟨h1, h2⟩, h3⟩
  refine ⟨hrecs, hmem, ?_, ?_⟩
  · rw [hrecs, List.pairwise_map]
    exact List.Pairwise.sublist (List.filter_sublist _) hwf.1
  · intro r hr
    obtain ⟨q, -, -, -, hgt, rfl⟩ := (hmem r).1 hr
    exact hgt

def t9 : Table :=
  ⟨[⟨1, "n1", "ns1", none, "u1", true, false, "b1"⟩,
    ⟨2, "n2", "ns2", none, "u2", true, false, "b2"⟩,
    ⟨3, "n3", "ns3", none, "u3", true, false, "b3"⟩], some 1⟩

/-- C9 witness: the tail characterization at `rev = 2` on a three-row
store — only the row with id 3 is returned. -/
theorem C9_witness :
    [outRec ⟨3, "n3", "ns3", none, "u3", true, false, "b3"⟩] =
      (afterRows t9 none none 2).map outRec ∧
    (∀ r, r ∈ [outRec ⟨3, "n3", "ns3", none, "u3", true, false, "b3"⟩] ↔
      ∃ q ∈ t9.rows, nsMatch none q = true ∧ nmMatch none q = true ∧
        2 < q.id ∧ r = outRec q) ∧
    List.Pairwise (fun a b => a.id < b.id)
      [outRec ⟨3, "n3", "ns3", none, "u3", true, false, "b3"⟩] ∧
    (∀ r ∈ [outRec ⟨3, "n3", "ns3", none, "u3", true, false, "b3"⟩],
      (2 : Int) < r.id) :=
  C9_tail_mode t9 (by constructor <;> decide) none none 2 ⟨3, 1⟩ _ rfl

/-! ## C6 — continue tokens and snapshot resumption -/

theorem listWhere_cont_split {ns nm : Option String} {rev : Int} {c : Int}
    (hc : c ≠ 0) (r : Rec) :
    listWhere ns nm rev c r = (listWhere ns nm rev 0 r && decide (c < r.id)) := by
  unfold listWhere contMatch
  have h1 : (c == 0) = false := by simp [hc]
  have h2 : ((0 : Int) == 0) = true := by decide
  rw [h1, h2]
  cases nsMatch ns r <;> cases nmMatch nm r <;> cases revMatch rev r <;>
    cases decide (c < r.id) <;> rfl

theorem isHead_filter_gt {F0 : List Rec} {c : Int} {r : Rec} (hr : c < r.id) :
    isHead (F0.filter fun q => decide (c < q.id)) r = isHead F0 r := by
  unfold isHead
  rw [Bool.eq_iff_iff, List.all_eq_true, List.all_eq_true]
  constructor
  · intro hall q hq
    by_cases hle : q.id ≤ r.id
    · simp [hle]
    · have hqc : c < q.id := by omega
      exact hall q (List.mem_filter.2 ⟨hq, by simpa using hqc⟩)
  · intro hall q hq
    exact hall q (List.mem_filter.1 hq).1

/-- Resuming a pinned snapshot at a cursor queries exactly the rows of
the cursor-free snapshot that lie past the cursor. -/
theorem snapshotRows_cont (t : Table) (ns nm : Option String) (rev : Int)
    {c : Int} (hc : c ≠ 0) :
    snapshotRows t ns nm rev c =
      (snapshotRows t ns nm rev 0).filter fun r => decide (c < r.id) := by
  unfold snapshotRows
  have hF : t.rows.filter (listWhere ns nm rev c) =
      (t.rows.filter (listWhere ns nm rev 0)).filter fun q => decide (c < q.id) := by
    rw [List.filter_filter]
    apply List.filter_congr
    intro r _
    rw [listWhere_cont_split hc]
    cases listWhere ns nm rev 0 r <;> cases decide (c < r.id) <;> rfl
  rw [hF]
  generalize t.rows.filter (listWhere ns nm rev 0) = F0
  have h1 : (F0.filter fun q => decide (c < q.id)).filter
      (fun r => isHead (F0.filter fun q => decide (c < q.id)) r && !r.deleted) =
      (F0.filter fun q => decide (c < q.id)).filter
      (fun r => isHead F0 r && !r.deleted) := by
    apply List.filter_congr
    intro r hr
    have hcr : c < r.id := by simpa using (List.mem_filter.1 hr).2
    rw [isHead_filter_gt hcr]
  rw [h1, List.filter_filter, List.filter_filter]
  apply List.filter_congr
  intro r _
  cases isHead F0 r <;> cases r.deleted <;> cases decide (c < r.id) <;> rfl

theorem pinMeta_of_pos (rev : Int) (m0 : TableMeta) (h : 0 < rev) :
    pinMeta rev false m0 = ⟨rev, m0.CompactionID⟩ := by
  unfold pinMeta
  rw [if_pos ⟨h, rfl⟩]

theorem listMeta_pinned (t : Table) (ns nm : Option String) {rev : Int}
    (cont limit : Int) (hrev : 0 < rev) :
    (listMeta t ns nm rev false cont limit).ListID = rev := by
  unfold listMeta
  rw [pinMeta_of_pos rev _ hrev]
  rw [if_neg (by simp; omega)]

theorem dbList_pinned (t : Table) (ns nm : Option String) {rev : Int}
    (cont limit : Int) {m : TableMeta} {recs : List Rec} (hrev : 0 < rev)
    (h : dbList t ns nm rev false cont limit = .ok (m, recs)) : m.ListID = rev := by
  unfold dbList at h
  rw [if_neg (by omega), if_neg (by simp)] at h
  split at h
  · cases h
  · cases h
    exact listMeta_pinned t ns nm cont limit hrev

/-- A pinned snapshot is unaffected by rows appended past its revision
(concurrent writes get higher ids) and by watermark changes. -/
theorem snapshotRows_append (t : Table) (extra : List Rec) (wm' : Option Int)
    (ns nm : Option String) {rev : Int} (cont : Int) (hrev : rev ≠ 0)
    (hx : ∀ r ∈ extra, rev < r.id) :
    snapshotRows ⟨t.rows ++ extra, wm'⟩ ns nm rev cont =
      snapshotRows t ns nm rev cont := by
  unfold snapshotRows
  have hfe : extra.filter (listWhere ns nm rev cont) = [] := by
    rw [List.filter_eq_nil_iff]
    intro r hr hw
    have hrev' := (listWhere_iff.1 hw).2.2.1
    unfold revMatch at hrev'
    have h0 : (rev == 0) = false := by simp [hrev]
    rw [h0] at hrev'
    simp only [Bool.false_or, decide_eq_true_eq] at hrev'
    have := hx r hr
    omega
  have hfil : (⟨t.rows ++ extra, wm'⟩ : Table).rows.filter (listWhere ns nm rev cont) =
      t.rows.filter (listWhere ns nm rev cont) := by
    show (t.rows ++ extra).filter _ = _
    rw [List.filter_append, hfe, List.append_nil]
  rw [hfil]

theorem listLoop_continue (pred : Rec → Bool) (limit : Int) (mkTok : Int → String) :
    ∀ (stream acc items : List Rec) (tok : String),
      listLoop pred limit mkTok acc stream = (items, tok) → tok ≠ "" →
      ∃ last, items.getLast? = some last ∧ tok = mkTok last.id := by
  intro stream
  induction stream with
  | nil =>
    intro acc items tok h hne
    unfold listLoop at h
    cases h
    exact absurd rfl hne
  | cons r rest ih =>
    intro acc items tok h hne
    unfold listLoop at h
    split at h
    · exact ih acc items tok h hne
    · split at h
      · rename_i hcond
        cases h
        cases acc with
        | nil => simp at hcond; omega
        | cons a as =>
          refine ⟨a, ?_, rfl⟩
          rw [List.getLast?_reverse]
          rfl
      · exact ih _ items tok h hne

/-- C6 (amended, **db variant**): (a) whenever `List` stops early and
writes a non-empty continue token, the token is
`"<snapshot-rev>:<last-emitted-id>"` — the list's own resourceVersion
(the snapshot revision) joined with the id of the last emitted object;
(b) a subsequent list that resumes at that token (revision `R`, cursor
`C`) queries exactly the rows of the same snapshot at `R` past the cursor
`C`; (c) every page of a list pinned at revision `R > 0` reports
`ListID = R`, so the snapshot revision is identical across pages; and
(d) a snapshot pinned at `R` is unchanged by rows later appended with
ids `> R`, so the resumed page really is the *same* snapshot.  (The
**pg variant** writes a bare `"<last-emitted-id>"` token with no snapshot
revision — see the counterexample.) -/
theorem C6_db_continue_token (t : Table) (ns nm : Option String)
    (pred : Rec → Bool) (limit : Int) :
    (∀ rvOpt contTok res,
      dbStrategyList t ns nm rvOpt contTok limit pred = .ok res →
      res.continueTok ≠ "" →
      ∃ last, res.items.getLast? = some last ∧
        res.continueTok = res.rv ++ ":" ++ toString last.id) ∧
    (∀ R C : Int, C ≠ 0 →
      snapshotRows t ns nm R C =
        (snapshotRows t ns nm R 0).filter fun r => decide (C < r.id)) ∧
    (∀ (R cont lim : Int) (m : TableMeta) (recs : List Rec), 0 < R →
      dbList t ns nm R false cont lim = .ok (m, recs) → m.ListID = R) ∧
    (∀ (extra : List Rec) (wm' : Option Int) (R C : Int), R ≠ 0 →
      (∀ r ∈ extra, R < r.id) →
      snapshotRows ⟨t.rows ++ extra, wm'⟩ ns nm R C =
        snapshotRows t ns nm R C) := by
  refine ⟨?_, fun R C hC => snapshotRows_cont t ns nm R hC,
    fun R cont lim m recs hR h => dbList_pinned t ns nm cont lim hR h,
    fun extra wm' R C hR hx => snapshotRows_append t extra wm' ns nm C hR hx⟩
  intro rvOpt contTok res h hne
  unfold dbStrategyList at h
  cases hp : (if contTok = "" then (parseRv rvOpt).map (fun r => (r, 0))
      else parseContinueTok contTok) with
  | error e => rw [hp] at h; simp only [] at h; cases h
  | ok rc =>
    rw [hp] at h
    obtain ⟨rev0, cont0⟩ := rc
    simp only [] at h
    cases hnl : newListerStream t ns nm rev0 cont0 limit with
    | error e => rw [hnl] at h; simp only [] at h; cases h
    | ok ls =>
      rw [hnl] at h
      obtain ⟨listID, stream⟩ := ls
      simp only [] at h
      cases hll : listLoop pred limit
          (fun i => toString listID ++ ":" ++ toString i) [] stream with
      | mk items tok =>
        rw [hll] at h
        simp only [] at h
        cases h
        obtain ⟨last, hlast, htok⟩ :=
          listLoop_continue pred limit _ stream [] items tok hll hne
        exact ⟨last, hlast, htok⟩

def t6 : Table :=
  ⟨[⟨1, "n1", "ns1", none, "u1", true, false, "b1"⟩,
    ⟨2, "n2", "ns2", none, "u2", true, false, "b2"⟩,
    ⟨3, "n3", "ns3", none, "u3", true, false, "b3"⟩], none⟩

/-- C6 counterexample: on a store with three live objects and
`limit = 1`, the **pg variant** `List` stops early at snapshot revision 3
after emitting the object with id 1 — and writes the bare token `"1"`,
not the claimed `"<snapshot-rev>:<last-emitted-id>"` form `"3:1"`. -/
theorem C6_counterexample :
    pgStrategyList t6 none none "" "" 1 (fun _ => true) =
      .ok ⟨[outRec ⟨1, "n1", "ns1", none, "u1", true, false, "b1"⟩], "3", "1"⟩ ∧
    ("1" : String) ≠ "3" ++ ":" ++ "1" := by
  constructor
  · rfl
  · decide

/-- C6 witness: the db-variant `List` on the same store emits the token
`"3:1"`, and the token-shape clause reproduces it from the last emitted
object's id. -/
theorem C6_witness :
    ∃ last, [outRec ⟨1, "n1", "ns1", none, "u1", true, false, "b1"⟩].getLast? =
        some last ∧ ("3:1" : String) = "3" ++ ":" ++ toString last.id :=
  (C6_db_continue_token t6 none none (fun _ => true) 1).1 "" ""
    ⟨[outRec ⟨1, "n1", "ns1", none, "u1", true, false, "b1"⟩], "3", "3:1"⟩
    rfl (by decide)

end Kinm
